import Mathlib

/-
Verification development for the UV query core (src/uvQuery.cpp).

Embedding conventions:
- C++ `double` coordinates are modelled as exact rationals (ℚ); `uv_t` is a pair ℚ × ℚ.
- `std::vector` is modelled as `List`; every indexed access of the source is a checked
  access (`List.get?`), and a function whose C++ body can perform an out-of-bounds
  access returns `Option`: `none` models a read or write outside the vector.
- `size_t` arithmetic is modelled on ℕ, except where the source converts a negative
  value: `mxSIdxs[-1]` (line 101 of uvQuery.cpp) indexes with `(size_t)(-1)`,
  modelled as the explicit index `sentinelReadIdx = 2^64 - 1`.
- `pointInTri` is declared in uvMath.h, outside this repository's source; the spec
  treats it as an external black box, so the sweep is parameterised by an arbitrary
  boolean predicate `pit` of the same arguments.
-/

namespace UvQuery

/-- Checked access: a successful `get?` implies the index is in range. -/
theorem lp_get?_lt {α : Type} {l : List α} {n : ℕ} {a : α} (h : l.get? n = some a) :
    n < l.length := by
  induction l generalizing n with
  | nil => simp [List.get?] at h
  | cons b bs ih =>
    cases n with
    | zero => simp
    | succ k =>
      have := ih (n := k) (by simpa [List.get?] using h)
      simpa using Nat.succ_lt_succ this

/-- Reading back the updated position of `List.set`. -/
theorem lp_get?_set_self {α : Type} (l : List α) (i : ℕ) (a : α) (h : i < l.length) :
    (l.set i a).get? i = some a := by
  induction l generalizing i with
  | nil => simp at h
  | cons b bs ih =>
    cases i with
    | zero => rfl
    | succ k =>
      have := ih k (by simpa using h)
      simpa [List.set, List.get?] using this

/-- `List.set` leaves every other position unchanged. -/
theorem lp_get?_set_ne {α : Type} (l : List α) (i j : ℕ) (a : α) (h : i ≠ j) :
    (l.set i a).get? j = l.get? j := by
  induction l generalizing i j with
  | nil => simp [List.set]
  | cons b bs ih =>
    cases i with
    | zero =>
      cases j with
      | zero => exact absurd rfl h
      | succ k => rfl
    | succ m =>
      cases j with
      | zero => rfl
      | succ k =>
        have := ih m k (fun he => h (by simpa using he))
        simpa [List.set, List.get?] using this

/-- Every in-range entry of `List.replicate` is the replicated value. -/
theorem lp_get?_replicate {α : Type} (n i : ℕ) (x : α) :
    (List.replicate n x).get? i = if i < n then some x else none := by
  induction n generalizing i with
  | zero => simp [List.replicate]
  | succ m ih =>
    cases i with
    | zero => simp [List.replicate]
    | succ k => simpa [List.replicate, List.get?, Nat.succ_lt_succ_iff] using ih k

/-- Monadic map over `Option`, written with explicit matches: the shape used by the
    per-element construction loops of the source (bounding boxes, edge data). -/
def optMap {α β : Type} (f : α → Option β) : List α → Option (List β)
  | [] => some []
  | x :: xs =>
    match f x, optMap f xs with
    | some y, some ys => some (y :: ys)
    | _, _ => none

/-- `optMap` preserves length when it succeeds. -/
theorem optMap_length {α β : Type} {f : α → Option β} :
    ∀ {l : List α} {l2 : List β}, optMap f l = some l2 → l2.length = l.length := by
  intro l
  induction l with
  | nil => intro l2 h; simp [optMap] at h; simp [← h]
  | cons x xs ih =>
    intro l2 h
    rw [optMap] at h
    cases hx : f x with
    | none => rw [hx] at h; exact absurd h (by simp)
    | some y =>
      rw [hx] at h
      cases hxs : optMap f xs with
      | none => rw [hxs] at h; exact absurd h (by simp)
      | some ys =>
        rw [hxs] at h
        have h2 := ih hxs
        cases h
        simp [h2]

/-- The comparison relation realised by `std::stable_sort` in `argsort`
    (uvQuery.cpp lines 29-30): the comparator is `v[i1] < v[i2]`, and stability
    resolves equal keys by original position, so the sorted output is ordered by
    the total relation "smaller key, or equal key and smaller original index".
    Keys are read with `getD`; `argsort` only ever compares indices below
    `v.length`, where `getD` equals the vector entry. -/
def argRel (v : List ℚ) (i j : ℕ) : Prop :=
  v.getD i 0 < v.getD j 0 ∨ (v.getD i 0 = v.getD j 0 ∧ i ≤ j)

instance argRelDecidable (v : List ℚ) : DecidableRel (argRel v) := fun i j =>
  if h1 : v.getD i 0 < v.getD j 0 then isTrue (Or.inl h1)
  else
    if h2 : v.getD i 0 = v.getD j 0 then
      if h3 : i ≤ j then isTrue (Or.inr ⟨h2, h3⟩)
      else isFalse (fun hc => hc.elim h1 (fun hp => h3 hp.2))
    else isFalse (fun hc => hc.elim h1 (fun hp => h2 hp.1))

instance argRelTotal (v : List ℚ) : IsTotal ℕ (argRel v) := by
  constructor
  intro i j
  rcases lt_trichotomy (v.getD i 0) (v.getD j 0) with h | h | h
  · exact Or.inl (Or.inl h)
  · rcases Nat.le_total i j with hij | hij
    · exact Or.inl (Or.inr ⟨h, hij⟩)
    · exact Or.inr (Or.inr ⟨h.symm, hij⟩)
  · exact Or.inr (Or.inl h)

instance argRelTrans (v : List ℚ) : IsTrans ℕ (argRel v) := by
  constructor
  intro i j k hij hjk
  rcases hij with h1 | ⟨e1, l1⟩
  · rcases hjk with h2 | ⟨e2, l2⟩
    · exact Or.inl (h1.trans h2)
    · exact Or.inl (e2 ▸ h1)
  · rcases hjk with h2 | ⟨e2, l2⟩
    · exact Or.inl (e1 ▸ h2)
    · exact Or.inr ⟨e1.trans e2, l1.trans l2⟩

/-- Model of `argsort` (uvQuery.cpp lines 19-33): indices `0..n-1` (iota),
    stable-sorted by comparing the keyed values.  `std::stable_sort` applied to the
    strictly increasing index list with comparator `v[i1] < v[i2]` produces exactly
    the list sorted by `argRel v` (key order, ties by original position). -/
def argsort (v : List ℚ) : List ℕ :=
  List.insertionSort (argRel v) (List.range v.length)

/-- The black-box point-in-triangle predicate `pointInTri` (declared in uvMath.h;
    its implementation is outside this repository's algorithmic core). -/
abbrev Pit : Type := (ℚ × ℚ) → (ℚ × ℚ) → (ℚ × ℚ) → (ℚ × ℚ) → Bool

/-- The read-only data the sweep loop consults: the inputs of `sweep`
    (uvQuery.cpp lines 37-45) and the derived arrays built before the loop
    (lines 49-86). -/
structure SweepEnv where
  qPoints : List (ℚ × ℚ)
  uvs : List (ℚ × ℚ)
  tris : List ℕ
  numTris : ℕ
  xmns : List ℚ
  xmxs : List ℚ
  ymns : List ℚ
  ymxs : List ℚ
  qpx : List ℚ
  qpSIdxs : List ℕ
  mxSIdxs : List ℕ
  mnSIdxs : List ℕ
  skip : List Bool
deriving DecidableEq

/-- The mutable state of the sweep loop (uvQuery.cpp lines 66-76 and 85-86).
    `written` is ghost instrumentation with no counterpart in the source: it
    records each `(qpIdx, t)` pair at the single statement `out[qpIdx] = t`
    (line 113), so that theorems can speak about which `out` entries the loop
    has assigned.  `barys` mirrors the `barys` output parameter, which no
    statement of `sweep` ever touches. -/
structure SweepState where
  mnSIdx : ℕ
  mxSIdx : ℕ
  qpSIdx : ℕ
  qpIdx : ℕ
  mnIdx : ℕ
  mxIdx : ℕ
  qp : ℚ
  mn : ℚ
  mx : ℚ
  out : List ℕ
  missing : List ℕ
  activeTris : List Bool
  atSet : List ℕ
  barys : List (ℚ × ℚ)
  written : List (ℕ × ℕ)
deriving DecidableEq

/-- Bounding box of triangle `i` (uvQuery.cpp lines 51-57): reads the three
    vertex indices `tris[3i], tris[3i+1], tris[3i+2]` and the corresponding
    uvs, and returns `(xmin, ymin, xmax, ymax)`. -/
def triBox (uvs : List (ℚ × ℚ)) (tris : List ℕ) (i : ℕ) : Option (ℚ × ℚ × ℚ × ℚ) :=
  match tris.get? (3 * i), tris.get? (3 * i + 1), tris.get? (3 * i + 2) with
  | some i0, some i1, some i2 =>
    match uvs.get? i0, uvs.get? i1, uvs.get? i2 with
    | some p0, some p1, some p2 =>
      some (min p0.1 (min p1.1 p2.1), min p0.2 (min p1.2 p2.2),
            max p0.1 (max p1.1 p2.1), max p0.2 (max p1.2 p2.2))
    | _, _, _ => none
  | _, _, _ => none

/-- Setup phase of `sweep` (uvQuery.cpp lines 49-86): bounding boxes, the key
    array `qpx` — which the source fills from `uvs`, NOT from `qPoints`
    (lines 60-62) — the three argsorted permutations, the initial cursor values
    (unchecked `[0]` reads in the source, modelled as checked reads), the
    output arrays resized to `qPoints.size()` (value-initialised with zeros,
    lines 75-76), the skip flags and the empty active set. -/
def sweepInit (qPoints uvs : List (ℚ × ℚ)) (tris : List ℕ) :
    Option (SweepEnv × SweepState) :=
  let numTris := tris.length / 3
  match optMap (triBox uvs tris) (List.range numTris) with
  | none => none
  | some boxes =>
    let xmns := boxes.map fun b => b.1
    let ymns := boxes.map fun b => b.2.1
    let xmxs := boxes.map fun b => b.2.2.1
    let ymxs := boxes.map fun b => b.2.2.2
    let qpx := List.map Prod.fst uvs
    let qpSIdxs := argsort qpx
    let mxSIdxs := argsort xmxs
    let mnSIdxs := argsort xmns
    match qpSIdxs.get? 0, mxSIdxs.get? 0, mnSIdxs.get? 0 with
    | some qpIdx, some mxIdx, some mnIdx =>
      match qpx.get? qpIdx, xmxs.get? mxIdx, xmns.get? mnIdx with
      | some qp, some mx, some mn =>
        some (⟨qPoints, uvs, tris, numTris, xmns, xmxs, ymns, ymxs, qpx,
               qpSIdxs, mxSIdxs, mnSIdxs, xmxs.map fun x => decide (qp > x)⟩,
              ⟨0, 0, 0, qpIdx, mnIdx, mxIdx, qp, mn, mx,
               List.replicate qPoints.length 0, List.replicate qPoints.length 0,
               List.replicate numTris false, [], [], []⟩)
      | _, _, _ => none
    | _, _, _ => none

/-- The linear scan over the active set in the Test action (uvQuery.cpp lines
    109-118): the first triangle whose y-box straddles the query point and for
    which the external predicate fires.  `std::unordered_set` iteration order is
    unspecified in C++; the model fixes insertion order. -/
def scanActive (env : SweepEnv) (pit : Pit) (qPoint : ℚ × ℚ) :
    List ℕ → Option (Option ℕ)
  | [] => some none
  | t :: rest =>
    match env.ymns.get? t, env.ymxs.get? t with
    | some ymn, some ymx =>
      if ymn ≤ qPoint.2 ∧ qPoint.2 ≤ ymx then
        match env.tris.get? (3 * t), env.tris.get? (3 * t + 1), env.tris.get? (3 * t + 2) with
        | some i0, some i1, some i2 =>
          match env.uvs.get? i0, env.uvs.get? i1, env.uvs.get? i2 with
          | some v0, some v1, some v2 =>
            if pit qPoint v0 v1 v2 then some (some t) else scanActive env pit qPoint rest
          | _, _, _ => none
        | _, _, _ => none
      else scanActive env pit qPoint rest
    | _, _ => none

/-- The index actually read by `mxSIdxs[-1]` at uvQuery.cpp line 101:
    `operator[]` of `std::vector` takes a `size_t`, and the conversion of `-1`
    yields `2^64 - 1` on a 64-bit platform. -/
def sentinelReadIdx : ℕ := 2 ^ 64 - 1

/-- One iteration of the sweep loop (uvQuery.cpp lines 88-144).  The result is
    `some (finished, s1)`: `finished = true` models the `break` at line 125,
    and `none` models an out-of-bounds vector access.  The three branches are,
    in source order: Activate (89-103), Test (104-129), Deactivate (130-143).
    At xmin-cursor exhaustion the source executes `mn = xmxs[mxSIdxs[-1]] + 1`
    (line 101), modelled by the checked read at `sentinelReadIdx`. -/
def sweepStep (env : SweepEnv) (pit : Pit) (s : SweepState) :
    Option (Bool × SweepState) :=
  if s.mn ≤ s.mx ∧ s.mn ≤ s.qp then
    match env.mnSIdxs.get? s.mnSIdx with
    | none => none
    | some aTriIdx =>
      match s.activeTris.get? aTriIdx, env.skip.get? aTriIdx with
      | some fl, some sk =>
        if s.mnSIdx + 1 ≠ env.numTris then
          match env.mnSIdxs.get? (s.mnSIdx + 1) with
          | none => none
          | some mnIdx2 =>
            match env.xmns.get? mnIdx2 with
            | none => none
            | some mn2 =>
              some (false,
                { s with
                  activeTris := if fl = false ∧ sk = false then
                      s.activeTris.set aTriIdx true else s.activeTris,
                  atSet := if fl = false ∧ sk = false then
                      s.atSet ++ [aTriIdx] else s.atSet,
                  mnSIdx := s.mnSIdx + 1, mnIdx := mnIdx2, mn := mn2 })
        else
          match env.mxSIdxs.get? sentinelReadIdx with
          | none => none
          | some j =>
            match env.xmxs.get? j with
            | none => none
            | some mxv =>
              some (false,
                { s with
                  activeTris := if fl = false ∧ sk = false then
                      s.activeTris.set aTriIdx true else s.activeTris,
                  atSet := if fl = false ∧ sk = false then
                      s.atSet ++ [aTriIdx] else s.atSet,
                  mnSIdx := s.mnSIdx + 1, mn := mxv + 1 })
      | _, _ => none
  else if s.qp ≤ s.mx then
    match env.qPoints.get? s.qpIdx with
    | none => none
    | some qPoint =>
      match scanActive env pit qPoint s.atSet with
      | none => none
      | some found =>
        match (match found with
               | some t =>
                 if s.qpIdx < s.out.length then
                   some { s with out := s.out.set s.qpIdx t,
                                 written := s.written ++ [(s.qpIdx, t)] }
                 else none
               | none => some { s with missing := s.missing ++ [s.qpIdx] }) with
        | none => none
        | some s1 =>
          if s.qpSIdx + 1 = env.qpSIdxs.length then
            some (true, { s1 with qpSIdx := s.qpSIdx + 1 })
          else
            match env.qpSIdxs.get? (s.qpSIdx + 1) with
            | none => none
            | some qpIdx2 =>
              match env.qpx.get? qpIdx2 with
              | none => none
              | some qp2 =>
                some (false, { s1 with qpSIdx := s.qpSIdx + 1,
                                       qpIdx := qpIdx2, qp := qp2 })
  else
    match env.mxSIdxs.get? s.mxSIdx with
    | none => none
    | some aTriIdx =>
      match s.activeTris.get? aTriIdx, env.skip.get? aTriIdx with
      | some fl, some sk =>
        if s.mxSIdx + 1 ≠ env.mxSIdxs.length then
          match env.mxSIdxs.get? (s.mxSIdx + 1) with
          | none => none
          | some mxIdx2 =>
            match env.xmxs.get? mxIdx2 with
            | none => none
            | some mx2 =>
              some (false,
                { s with
                  activeTris := if fl = true ∧ sk = false then
                      s.activeTris.set aTriIdx false else s.activeTris,
                  atSet := if fl = true ∧ sk = false then
                      s.atSet.filter (fun x => x != aTriIdx) else s.atSet,
                  mxSIdx := s.mxSIdx + 1, mxIdx := mxIdx2, mx := mx2 })
        else
          some (false,
            { s with
              activeTris := if fl = true ∧ sk = false then
                  s.activeTris.set aTriIdx false else s.activeTris,
              atSet := if fl = true ∧ sk = false then
                  s.atSet.filter (fun x => x != aTriIdx) else s.atSet,
              mxSIdx := s.mxSIdx + 1 })
      | _, _ => none

/-- Outcome of running the sweep loop: `oob` marks an out-of-bounds vector
    access (undefined behaviour in the C++ source), `fuelOut` marks exhaustion
    of the step budget of the model, and `done` is a normal exit through the
    `break` of uvQuery.cpp line 125, carrying the final state. -/
inductive LoopRes where
  | oob : LoopRes
  | fuelOut : LoopRes
  | done : SweepState → LoopRes
deriving DecidableEq

/-- The sweep loop, iterated for at most `fuel` steps. -/
def sweepLoopF (env : SweepEnv) (pit : Pit) : ℕ → SweepState → LoopRes
  | 0, _ => .fuelOut
  | fuel + 1, s =>
    match sweepStep env pit s with
    | none => .oob
    | some (true, s1) => .done s1
    | some (false, s1) => sweepLoopF env pit fuel s1

/-- The `sweep` entry point (uvQuery.cpp lines 37-145): setup then loop.  A
    failed setup read is reported as `oob` as well. -/
def sweep (fuel : ℕ) (pit : Pit) (qPoints uvs : List (ℚ × ℚ)) (tris : List ℕ) :
    LoopRes :=
  match sweepInit qPoints uvs tris with
  | none => .oob
  | some (env, s0) => sweepLoopF env pit fuel s0

/-- The states the sweep loop passes through, starting from `s0`: reflexive
    closure of successful steps (both continuing and finishing ones). -/
inductive ReachFrom (env : SweepEnv) (pit : Pit) (s0 : SweepState) :
    SweepState → Prop where
  | refl : ReachFrom env pit s0 s0
  | next : ∀ {s : SweepState} {b : Bool} {s1 : SweepState},
      ReachFrom env pit s0 s → sweepStep env pit s = some (b, s1) →
      ReachFrom env pit s0 s1

/-- The loop invariant of the sweep: (1) a triangle is in `atSet` iff its
    `activeTris` flag is set; (2) `atSet` has no duplicates; (3) no member of
    `atSet` is skipped; (4) every `out` entry with no recorded write still holds
    the zero left by the value-initialising resize; (5) `out` keeps the length
    `qPoints.size()` it was resized to; (6) `missing` still starts with the
    placeholder zeros the resize at line 76 put there; (7) `barys` is untouched. -/
def GoodS (env : SweepEnv) (n : ℕ) (s : SweepState) : Prop :=
  (∀ t, t ∈ s.atSet ↔ s.activeTris.get? t = some true) ∧
  s.atSet.Nodup ∧
  (∀ t, t ∈ s.atSet → env.skip.get? t = some false) ∧
  (∀ i, (∀ t, (i, t) ∉ s.written) → i < s.out.length → s.out.get? i = some 0) ∧
  s.out.length = n ∧
  (∃ tail, s.missing = List.replicate n 0 ++ tail) ∧
  s.barys = []

/-- A `GoodS`-relevant-field transport: the invariant only looks at `atSet`,
    `activeTris`, `out`, `missing`, `written` and `barys`. -/
theorem goodS_of_fields {env : SweepEnv} {n : ℕ} {s s1 : SweepState}
    (h1 : s1.atSet = s.atSet) (h2 : s1.activeTris = s.activeTris)
    (h3 : s1.out = s.out) (h4 : s1.missing = s.missing)
    (h5 : s1.written = s.written) (h6 : s1.barys = s.barys)
    (hg : GoodS env n s) : GoodS env n s1 := by
  unfold GoodS at hg ⊢
  rw [h1, h2, h3, h4, h5, h6]
  exact hg

/-- Inserting an inactive, unskipped triangle preserves the active-set part of
    the invariant (the Activate action, uvQuery.cpp lines 91-94). -/
theorem agree_insert {env : SweepEnv} {ats : List ℕ} {flags : List Bool} {a : ℕ}
    (hmem : ∀ t, t ∈ ats ↔ flags.get? t = some true)
    (hnd : ats.Nodup)
    (hsk : ∀ t, t ∈ ats → env.skip.get? t = some false)
    (hfl : flags.get? a = some false)
    (hska : env.skip.get? a = some false) :
    (∀ t, t ∈ ats ++ [a] ↔ (flags.set a true).get? t = some true) ∧
    (ats ++ [a]).Nodup ∧
    (∀ t, t ∈ ats ++ [a] → env.skip.get? t = some false) := by
  have hna : a ∉ ats := by
    intro hin
    have h2 := (hmem a).mp hin
    rw [hfl] at h2
    simp at h2
  refine ⟨?_, ?_, ?_⟩
  · intro t
    by_cases ht : t = a
    · subst ht
      rw [lp_get?_set_self _ _ _ (lp_get?_lt hfl)]
      simp
    · rw [lp_get?_set_ne _ _ _ _ (fun he => ht he.symm)]
      rw [List.mem_append]
      simp only [List.mem_singleton, ht, or_false]
      exact hmem t
  · rw [List.nodup_append]
    exact ⟨hnd, List.nodup_singleton a, by simpa using hna⟩
  · intro t ht
    rcases List.mem_append.mp ht with hl | hl
    · exact hsk t hl
    · rw [List.mem_singleton] at hl
      exact hl ▸ hska
/-- Erasing an active triangle preserves the active-set part of the invariant
    (the Deactivate action, uvQuery.cpp lines 133-136). -/
theorem agree_erase {env : SweepEnv} {ats : List ℕ} {flags : List Bool} {a : ℕ}
    (hmem : ∀ t, t ∈ ats ↔ flags.get? t = some true)
    (hnd : ats.Nodup)
    (hsk : ∀ t, t ∈ ats → env.skip.get? t = some false)
    (hfl : flags.get? a = some true) :
    (∀ t, t ∈ ats.filter (fun x => x != a) ↔
      (flags.set a false).get? t = some true) ∧
    (ats.filter (fun x => x != a)).Nodup ∧
    (∀ t, t ∈ ats.filter (fun x => x != a) → env.skip.get? t = some false) := by
  refine ⟨?_, List.Nodup.filter _ hnd, ?_⟩
  · intro t
    by_cases ht : t = a
    · subst ht
      rw [lp_get?_set_self _ _ _ (lp_get?_lt hfl)]
      constructor
      · intro hin
        have := (List.mem_filter.mp hin).2
        simp at this
      · intro h2
        simp at h2
    · rw [lp_get?_set_ne _ _ _ _ (fun he => ht he.symm)]
      rw [List.mem_filter]
      have hbne : (t != a) = true := by simpa using ht
      simp only [hbne, and_true]
      exact hmem t
  · intro t ht
    exact hsk t (List.mem_filter.mp ht).1

/-- Writing `out[q] = tr` while recording `(q, tr)` preserves the frame part of
    the invariant: unrecorded entries still read zero. -/
theorem outZero_write {out : List ℕ} {w : List (ℕ × ℕ)} {q tr : ℕ}
    (hz : ∀ i, (∀ t, (i, t) ∉ w) → i < out.length → out.get? i = some 0) :
    ∀ i, (∀ t, (i, t) ∉ w ++ [(q, tr)]) → i < (out.set q tr).length →
      (out.set q tr).get? i = some 0 := by
  intro i hi hlen
  have hiq : i ≠ q := by
    intro he
    exact hi tr (by simp [he])
  rw [List.length_set] at hlen
  rw [lp_get?_set_ne _ _ _ _ (fun he => hiq he.symm)]
  refine hz i (fun t ht => hi t ?_) hlen
  simp [ht]

/-- Invariant preservation for the Activate action's state shape. -/
theorem goodS_set_insert {env : SweepEnv} {n : ℕ} {s : SweepState} {a : ℕ}
    {fl sk : Bool}
    (hg : GoodS env n s)
    (hfl : s.activeTris.get? a = some fl)
    (hsk : env.skip.get? a = some sk)
    (s1 : SweepState)
    (hats : s1.atSet =
      (if fl = false ∧ sk = false then s.atSet ++ [a] else s.atSet))
    (hflags : s1.activeTris =
      (if fl = false ∧ sk = false then s.activeTris.set a true else s.activeTris))
    (hout : s1.out = s.out) (hmiss : s1.missing = s.missing)
    (hw : s1.written = s.written) (hb : s1.barys = s.barys) :
    GoodS env n s1 := by
  obtain ⟨hmem, hnd, hskinv, hz, hlen, htail, hbarys⟩ := hg
  by_cases hc : fl = false ∧ sk = false
  · rw [if_pos hc] at hats
    rw [if_pos hc] at hflags
    obtain ⟨hm2, hn2, hs2⟩ :=
      agree_insert hmem hnd hskinv (hc.1 ▸ hfl) (hc.2 ▸ hsk)
    unfold GoodS
    rw [hats, hflags, hout, hmiss, hw, hb]
    exact ⟨hm2, hn2, hs2, hz, hlen, htail, hbarys⟩
  · rw [if_neg hc] at hats
    rw [if_neg hc] at hflags
    exact goodS_of_fields hats hflags hout hmiss hw hb
      ⟨hmem, hnd, hskinv, hz, hlen, htail, hbarys⟩

/-- Invariant preservation for the Deactivate action's state shape. -/
theorem goodS_set_erase {env : SweepEnv} {n : ℕ} {s : SweepState} {a : ℕ}
    {fl sk : Bool}
    (hg : GoodS env n s)
    (hfl : s.activeTris.get? a = some fl)
    (_hsk : env.skip.get? a = some sk)
    (s1 : SweepState)
    (hats : s1.atSet =
      (if fl = true ∧ sk = false then s.atSet.filter (fun x => x != a) else s.atSet))
    (hflags : s1.activeTris =
      (if fl = true ∧ sk = false then s.activeTris.set a false else s.activeTris))
    (hout : s1.out = s.out) (hmiss : s1.missing = s.missing)
    (hw : s1.written = s.written) (hb : s1.barys = s.barys) :
    GoodS env n s1 := by
  obtain ⟨hmem, hnd, hskinv, hz, hlen, htail, hbarys⟩ := hg
  by_cases hc : fl = true ∧ sk = false
  · rw [if_pos hc] at hats
    rw [if_pos hc] at hflags
    obtain ⟨hm2, hn2, hs2⟩ := agree_erase hmem hnd hskinv (hc.1 ▸ hfl)
    unfold GoodS
    rw [hats, hflags, hout, hmiss, hw, hb]
    exact ⟨hm2, hn2, hs2, hz, hlen, htail, hbarys⟩
  · rw [if_neg hc] at hats
    rw [if_neg hc] at hflags
    exact goodS_of_fields hats hflags hout hmiss hw hb
      ⟨hmem, hnd, hskinv, hz, hlen, htail, hbarys⟩

/-- Invariant preservation for the Test action when the point-in-triangle test
    hits and `out[qpIdx]` is written. -/
theorem goodS_write {env : SweepEnv} {n : ℕ} {s : SweepState} {q tr : ℕ}
    (hg : GoodS env n s)
    (s1 : SweepState)
    (hout : s1.out = s.out.set q tr)
    (hw : s1.written = s.written ++ [(q, tr)])
    (hats : s1.atSet = s.atSet) (hflags : s1.activeTris = s.activeTris)
    (hmiss : s1.missing = s.missing) (hb : s1.barys = s.barys) :
    GoodS env n s1 := by
  obtain ⟨hmem, hnd, hskinv, hz, hlen, htail, hbarys⟩ := hg
  unfold GoodS
  rw [hats, hflags, hout, hmiss, hw, hb]
  exact ⟨hmem, hnd, hskinv, outZero_write hz, by rw [List.length_set]; exact hlen,
         htail, hbarys⟩

/-- Invariant preservation for the Test action when no triangle contains the
    point and `qpIdx` is appended to `missing`. -/
theorem goodS_miss {env : SweepEnv} {n : ℕ} {s : SweepState} {q : ℕ}
    (hg : GoodS env n s)
    (s1 : SweepState)
    (hmiss : s1.missing = s.missing ++ [q])
    (hats : s1.atSet = s.atSet) (hflags : s1.activeTris = s.activeTris)
    (hout : s1.out = s.out) (hw : s1.written = s.written) (hb : s1.barys = s.barys) :
    GoodS env n s1 := by
  obtain ⟨hmem, hnd, hskinv, hz, hlen, ⟨tail, htail⟩, hbarys⟩ := hg
  unfold GoodS
  rw [hats, hflags, hout, hmiss, hw, hb]
  exact ⟨hmem, hnd, hskinv, hz, hlen, ⟨tail ++ [q], by rw [htail, List.append_assoc]⟩,
         hbarys⟩

/-- One successful step of the sweep loop preserves the invariant. -/
theorem sweepStep_good {env : SweepEnv} {pit : Pit} {n : ℕ} {s : SweepState}
    {b : Bool} {s1 : SweepState}
    (h : sweepStep env pit s = some (b, s1)) (hg : GoodS env n s) :
    GoodS env n s1 := by
  rw [sweepStep] at h
  split at h
  · -- Activate
    split at h
    · exact absurd h (by simp)
    · rename_i aTriIdx ha
      split at h
      · rename_i fl sk hfl hsk
        split at h
        · split at h
          · exact absurd h (by simp)
          · rename_i mnIdx2 hmn2
            split at h
            · exact absurd h (by simp)
            · rename_i mn2 hmn2v
              simp only [Option.some.injEq, Prod.mk.injEq] at h
              obtain ⟨hb1, hs1⟩ := h
              subst hs1
              exact goodS_set_insert hg hfl hsk _ rfl rfl rfl rfl rfl rfl
        · split at h
          · exact absurd h (by simp)
          · rename_i j hj
            split at h
            · exact absurd h (by simp)
            · rename_i mxv hmxv
              simp only [Option.some.injEq, Prod.mk.injEq] at h
              obtain ⟨hb1, hs1⟩ := h
              subst hs1
              exact goodS_set_insert hg hfl hsk _ rfl rfl rfl rfl rfl rfl
      · exact absurd h (by simp)
  · -- Test or Deactivate
    split at h
    · -- Test
      cases hqp : env.qPoints.get? s.qpIdx with
      | none =>
        rw [hqp] at h
        exact absurd h (by simp)
      | some qPoint =>
        rw [hqp] at h
        dsimp only at h
        cases hsc : scanActive env pit qPoint s.atSet with
        | none =>
          rw [hsc] at h
          exact absurd h (by simp)
        | some found =>
          rw [hsc] at h
          dsimp only at h
          have hrest : ∀ smid : SweepState, GoodS env n smid →
              (if s.qpSIdx + 1 = env.qpSIdxs.length then
                 some (true, { smid with qpSIdx := s.qpSIdx + 1 })
               else
                 match env.qpSIdxs.get? (s.qpSIdx + 1) with
                 | none => none
                 | some qpIdx2 =>
                   match env.qpx.get? qpIdx2 with
                   | none => none
                   | some qp2 =>
                     some (false, { smid with qpSIdx := s.qpSIdx + 1,
                                              qpIdx := qpIdx2, qp := qp2 })) =
                some (b, s1) →
              GoodS env n s1 := by
            intro smid hgmid hmid
            split at hmid
            · simp only [Option.some.injEq, Prod.mk.injEq] at hmid
              obtain ⟨hb1, hs1⟩ := hmid
              subst hs1
              exact goodS_of_fields rfl rfl rfl rfl rfl rfl hgmid
            · cases hq2 : env.qpSIdxs.get? (s.qpSIdx + 1) with
              | none =>
                rw [hq2] at hmid
                exact absurd hmid (by simp)
              | some qpIdx2 =>
                rw [hq2] at hmid
                dsimp only at hmid
                cases hqx : env.qpx.get? qpIdx2 with
                | none =>
                  rw [hqx] at hmid
                  exact absurd hmid (by simp)
                | some qp2 =>
                  rw [hqx] at hmid
                  simp only [Option.some.injEq, Prod.mk.injEq] at hmid
                  obtain ⟨hb1, hs1⟩ := hmid
                  subst hs1
                  exact goodS_of_fields rfl rfl rfl rfl rfl rfl hgmid
          cases found with
          | some t =>
            dsimp only at h
            by_cases hql : s.qpIdx < s.out.length
            · rw [if_pos hql] at h
              dsimp only at h
              refine hrest
                { s with out := s.out.set s.qpIdx t,
                         written := s.written ++ [(s.qpIdx, t)] } ?_ h
              exact goodS_write hg _ rfl rfl rfl rfl rfl rfl
            · rw [if_neg hql] at h
              exact absurd h (by simp)
          | none =>
            dsimp only at h
            refine hrest { s with missing := s.missing ++ [s.qpIdx] } ?_ h
            exact goodS_miss hg _ rfl rfl rfl rfl rfl rfl
    · -- Deactivate
      split at h
      · exact absurd h (by simp)
      · rename_i aTriIdx ha
        split at h
        · rename_i fl sk hfl hsk
          split at h
          · split at h
            · exact absurd h (by simp)
            · rename_i mxIdx2 hmx2
              split at h
              · exact absurd h (by simp)
              · rename_i mx2 hmx2v
                simp only [Option.some.injEq, Prod.mk.injEq] at h
                obtain ⟨hb1, hs1⟩ := h
                subst hs1
                exact goodS_set_erase hg hfl hsk _ rfl rfl rfl rfl rfl rfl
          · simp only [Option.some.injEq, Prod.mk.injEq] at h
            obtain ⟨hb1, hs1⟩ := h
            subst hs1
            exact goodS_set_erase hg hfl hsk _ rfl rfl rfl rfl rfl rfl
        · exact absurd h (by simp)

/-- Termination measure of the sweep loop: every continuing step advances one
    of the three cursors, each bounded by its permutation's length. -/
def sweepMeasure (env : SweepEnv) (s : SweepState) : ℕ :=
  (env.mnSIdxs.length + 1 - s.mnSIdx) + (env.mxSIdxs.length + 1 - s.mxSIdx) +
    (env.qpSIdxs.length - s.qpSIdx)

/-- Every continuing step of the sweep loop strictly decreases the measure:
    each branch first performs a successful read at its cursor (bounding the
    cursor by the permutation length) and then advances that cursor. -/
theorem sweepStep_decrease {env : SweepEnv} {pit : Pit} {s s1 : SweepState}
    (h : sweepStep env pit s = some (false, s1)) :
    sweepMeasure env s1 < sweepMeasure env s := by
  rw [sweepStep] at h
  split at h
  · -- Activate
    split at h
    · exact absurd h (by simp)
    · rename_i aTriIdx ha
      have hlt := lp_get?_lt ha
      split at h
      · rename_i fl sk hfl hsk
        split at h
        · split at h
          · exact absurd h (by simp)
          · rename_i mnIdx2 hmn2
            split at h
            · exact absurd h (by simp)
            · rename_i mn2 hmn2v
              simp only [Option.some.injEq, Prod.mk.injEq] at h
              obtain ⟨hb1, hs1⟩ := h
              subst hs1
              unfold sweepMeasure
              dsimp only
              omega
        · split at h
          · exact absurd h (by simp)
          · rename_i j hj
            split at h
            · exact absurd h (by simp)
            · rename_i mxv hmxv
              simp only [Option.some.injEq, Prod.mk.injEq] at h
              obtain ⟨hb1, hs1⟩ := h
              subst hs1
              unfold sweepMeasure
              dsimp only
              omega
      · exact absurd h (by simp)
  · split at h
    · -- Test
      cases hqp : env.qPoints.get? s.qpIdx with
      | none =>
        rw [hqp] at h
        exact absurd h (by simp)
      | some qPoint =>
        rw [hqp] at h
        dsimp only at h
        cases hsc : scanActive env pit qPoint s.atSet with
        | none =>
          rw [hsc] at h
          exact absurd h (by simp)
        | some found =>
          rw [hsc] at h
          dsimp only at h
          have hrest : ∀ smid : SweepState,
              smid.mnSIdx = s.mnSIdx → smid.mxSIdx = s.mxSIdx →
              smid.qpSIdx = s.qpSIdx →
              (if s.qpSIdx + 1 = env.qpSIdxs.length then
                 some (true, { smid with qpSIdx := s.qpSIdx + 1 })
               else
                 match env.qpSIdxs.get? (s.qpSIdx + 1) with
                 | none => none
                 | some qpIdx2 =>
                   match env.qpx.get? qpIdx2 with
                   | none => none
                   | some qp2 =>
                     some (false, { smid with qpSIdx := s.qpSIdx + 1,
                                              qpIdx := qpIdx2, qp := qp2 })) =
                some (false, s1) →
              sweepMeasure env s1 < sweepMeasure env s := by
            intro smid hmn hmx hqs hmid
            split at hmid
            · simp at hmid
            · cases hq2 : env.qpSIdxs.get? (s.qpSIdx + 1) with
              | none =>
                rw [hq2] at hmid
                exact absurd hmid (by simp)
              | some qpIdx2 =>
                rw [hq2] at hmid
                dsimp only at hmid
                cases hqx : env.qpx.get? qpIdx2 with
                | none =>
                  rw [hqx] at hmid
                  exact absurd hmid (by simp)
                | some qp2 =>
                  rw [hqx] at hmid
                  have hq2lt := lp_get?_lt hq2
                  simp only [Option.some.injEq, Prod.mk.injEq] at hmid
                  obtain ⟨hb1, hs1⟩ := hmid
                  subst hs1
                  unfold sweepMeasure
                  dsimp only
                  rw [hmn, hmx]
                  omega
          cases found with
          | some t =>
            dsimp only at h
            by_cases hql : s.qpIdx < s.out.length
            · rw [if_pos hql] at h
              dsimp only at h
              exact hrest
                { s with out := s.out.set s.qpIdx t,
                         written := s.written ++ [(s.qpIdx, t)] } rfl rfl rfl h
            · rw [if_neg hql] at h
              exact absurd h (by simp)
          | none =>
            dsimp only at h
            exact hrest { s with missing := s.missing ++ [s.qpIdx] } rfl rfl rfl h
    · -- Deactivate
      split at h
      · exact absurd h (by simp)
      · rename_i aTriIdx ha
        have hlt := lp_get?_lt ha
        split at h
        · rename_i fl sk hfl hsk
          split at h
          · split at h
            · exact absurd h (by simp)
            · rename_i mxIdx2 hmx2
              split at h
              · exact absurd h (by simp)
              · rename_i mx2 hmx2v
                simp only [Option.some.injEq, Prod.mk.injEq] at h
                obtain ⟨hb1, hs1⟩ := h
                subst hs1
                unfold sweepMeasure
                dsimp only
                omega
          · simp only [Option.some.injEq, Prod.mk.injEq] at h
            obtain ⟨hb1, hs1⟩ := h
            subst hs1
            unfold sweepMeasure
            dsimp only
            omega
        · exact absurd h (by simp)

/-- With fuel above the measure, the sweep loop never runs out of fuel: every
    run ends either in the `break` of line 125 (`done`) or at an out-of-bounds
    access (`oob`). -/
theorem sweepLoopF_no_fuelOut (env : SweepEnv) (pit : Pit) :
    ∀ (fuel : ℕ) (s : SweepState), sweepMeasure env s < fuel →
      sweepLoopF env pit fuel s ≠ LoopRes.fuelOut := by
  intro fuel
  induction fuel with
  | zero =>
    intro s hs
    omega
  | succ fuel ih =>
    intro s hs
    rw [sweepLoopF]
    cases hstep : sweepStep env pit s with
    | none => simp
    | some r =>
      obtain ⟨b, s1⟩ := r
      cases b with
      | true => simp
      | false =>
        dsimp only
        have hdec := sweepStep_decrease hstep
        exact ih s1 (by omega)

/-- A replicated-`false` flag vector answers `some true` nowhere. -/
theorem replicate_false_not_true (n t : ℕ) :
    ¬ (List.replicate n false).get? t = some true := by
  rw [lp_get?_replicate]
  split <;> simp

/-- The state built by the setup phase satisfies the sweep invariant. -/
theorem sweepInit_good {qPoints uvs : List (ℚ × ℚ)} {tris : List ℕ}
    {env : SweepEnv} {s0 : SweepState}
    (h : sweepInit qPoints uvs tris = some (env, s0)) :
    GoodS env qPoints.length s0 := by
  unfold sweepInit at h
  dsimp only at h
  split at h
  · exact absurd h (by simp)
  · rename_i boxes hboxes
    split at h
    · rename_i qpIdx mxIdx mnIdx h1 h2 h3
      split at h
      · rename_i qp mx mn h4 h5 h6
        simp only [Option.some.injEq, Prod.mk.injEq] at h
        obtain ⟨henv, hs0⟩ := h
        subst henv
        subst hs0
        unfold GoodS
        refine ⟨?_, List.nodup_nil, ?_, ?_, List.length_replicate _ _, ⟨[], by simp⟩, rfl⟩
        · intro t
          constructor
          · intro hin
            exact absurd hin (List.not_mem_nil t)
          · intro hin
            exact absurd hin (replicate_false_not_true _ t)
        · intro t hin
          exact absurd hin (List.not_mem_nil t)
        · intro i _ hi
          rw [List.length_replicate] at hi
          rw [lp_get?_replicate]
          exact if_pos hi
      · exact absurd h (by simp)
    · exact absurd h (by simp)

/-- Every state the sweep loop reaches satisfies the sweep invariant. -/
theorem reach_good {qPoints uvs : List (ℚ × ℚ)} {tris : List ℕ}
    {env : SweepEnv} {s0 : SweepState} {pit : Pit} {s : SweepState}
    (h0 : sweepInit qPoints uvs tris = some (env, s0))
    (hr : ReachFrom env pit s0 s) : GoodS env qPoints.length s := by
  induction hr with
  | refl => exact sweepInit_good h0
  | next hr hstep ih => exact sweepStep_good hstep ih

/-- Comparison of a candidate squared distance with the running minimum of
    `closestBruteForceEdge`.  The C++ initialises the minimum to
    `std::numeric_limits<double>::max()`; `none` models that initial value, and
    every candidate distance compares below it. -/
def ltMaxOpt (x : ℚ) : Option ℚ → Bool
  | none => true
  | some m => decide (x < m)

/-- The loop body of `closestBruteForceEdge` (uvQuery.cpp lines 162-184) for
    index `i`: compute the clamped projection parameter of `pt` onto the edge
    `a[i] + t * d[i]` using the supplied `dr2[i]` as divisor, measure the
    squared distance to the clamped projection, and keep the index of the
    smallest distance seen.  The accumulator is `(minIdx, minVal)`; the C++
    keeps `minIdx` in a `double`, but every value stored into it is a loop
    index (far below 2^53, hence exact), modelled as ℕ. -/
def cbfeBody (a d : List (ℚ × ℚ)) (dr2 : List ℚ) (pt : ℚ × ℚ)
    (acc : Option (ℕ × Option ℚ)) (i : ℕ) : Option (ℕ × Option ℚ) :=
  match acc with
  | none => none
  | some (minIdx, minVal) =>
    match a.get? i, d.get? i, dr2.get? i with
    | some aa, some dd, some r2 =>
      let lerp0 := ((pt.1 - aa.1) * dd.1 + (pt.2 - aa.2) * dd.2) / r2
      let lerp := if lerp0 < 0 then 0 else if 1 < lerp0 then 1 else lerp0
      let c0 := dd.1 * lerp + aa.1 - pt.1
      let c1 := dd.2 * lerp + aa.2 - pt.2
      if ltMaxOpt (c0 * c0 + c1 * c1) minVal then some (i, some (c0 * c0 + c1 * c1))
      else some (minIdx, minVal)
    | _, _, _ => none

/-- `closestBruteForceEdge` (uvQuery.cpp lines 148-186): brute-force scan over
    `i = 0 .. a.size() - 1` for the edge index with minimal squared distance,
    starting from `minIdx = 0` and an infinite running minimum.
    In ℚ, division by a zero `dr2[i]` yields 0 (a degenerate edge projects to
    its start point); in C++ it yields an infinity or NaN — the spec flags
    this degenerate case as unspecified, and no theorem below evaluates it. -/
def closestBruteForceEdge (a d : List (ℚ × ℚ)) (dr2 : List ℚ) (pt : ℚ × ℚ) :
    Option ℕ :=
  match (List.range a.length).foldl (cbfeBody a d dr2 pt) (some (0, none)) with
  | none => none
  | some p => some p.1

/-- The scan's fold keeps its best index inside the edge array. -/
theorem cbfeFold_range {a d : List (ℚ × ℚ)} {dr2 : List ℚ} {pt : ℚ × ℚ} :
    ∀ (l : List ℕ) (acc : Option (ℕ × Option ℚ)),
      (∀ x, x ∈ l → x < a.length) →
      (∀ n v, acc = some (n, v) → n < a.length) →
      ∀ q w, l.foldl (cbfeBody a d dr2 pt) acc = some (q, w) → q < a.length := by
  intro l
  induction l with
  | nil =>
    intro acc hl hacc q w h
    exact hacc q w (by simpa using h)
  | cons x xs ih =>
    intro acc hl hacc q w h
    rw [List.foldl_cons] at h
    refine ih _ (fun y hy => hl y (List.mem_cons_of_mem x hy)) ?_ q w h
    intro n v hnv
    unfold cbfeBody at hnv
    cases acc with
    | none => exact absurd hnv (by simp)
    | some p =>
      obtain ⟨mi, mv⟩ := p
      dsimp only at hnv
      repeat' split at hnv
      all_goals
        first
        | exact Option.noConfusion hnv
        | (simp only [Option.some.injEq, Prod.mk.injEq] at hnv
           obtain ⟨h1, h2⟩ := hnv
           subst h1
           first
           | exact hl x (List.mem_cons_self x xs)
           | exact hacc _ _ rfl)

/-- A successful `closestBruteForceEdge` on a non-empty edge list returns an
    in-range edge index. -/
theorem closestBruteForceEdge_range {a d : List (ℚ × ℚ)} {dr2 : List ℚ}
    {pt : ℚ × ℚ} {r : ℕ} (ha : 0 < a.length)
    (h : closestBruteForceEdge a d dr2 pt = some r) : r < a.length := by
  unfold closestBruteForceEdge at h
  cases hf : (List.range a.length).foldl (cbfeBody a d dr2 pt) (some (0, none)) with
  | none =>
    rw [hf] at h
    exact absurd h (by simp)
  | some p =>
    rw [hf] at h
    simp only [Option.some.injEq] at h
    subst h
    refine cbfeFold_range _ _ (fun x hx => List.mem_range.mp hx) ?_ p.1 p.2 (by rw [hf])
    intro n v hnv
    simp only [Option.some.injEq, Prod.mk.injEq] at hnv
    omega

/-- Per-edge precomputation of `handleMissing` (uvQuery.cpp lines 209-217):
    start point, direction vector, and the squared-length slot `bLens2`.
    The source computes `delta = diff[1] - diff[0]` and pushes `delta * delta`
    (lines 213-214), i.e. `(dy - dx)^2`, although its own comment for
    `closestBruteForceEdge` (line 157) calls this the squared length of the
    direction vector. -/
def edgeDatum (uvs : List (ℚ × ℚ)) (b : ℕ × ℕ) :
    Option ((ℚ × ℚ) × (ℚ × ℚ) × ℚ) :=
  match uvs.get? b.1, uvs.get? b.2 with
  | some uv1, some uv2 =>
    some (uv1, (uv2.1 - uv1.1, uv2.2 - uv1.2),
          ((uv2.2 - uv1.2) - (uv2.1 - uv1.1)) * ((uv2.2 - uv1.2) - (uv2.1 - uv1.1)))
  | _, _ => none

/-- The per-missing-point loop of `handleMissing` (uvQuery.cpp lines 219-224):
    look the missing index up in `uvs` (the source has no query-point array
    here), find the closest edge, and write the edge's adjacent triangle into
    `triIdxs` at the missing index. -/
def hmLoop (uvs : List (ℚ × ℚ)) (borderToTri : List ℕ)
    (starts bDiff : List (ℚ × ℚ)) (bLens2 : List ℚ) :
    List ℕ → List ℕ → Option (List ℕ)
  | [], triIdxs => some triIdxs
  | mIdx :: rest, triIdxs =>
    match uvs.get? mIdx with
    | none => none
    | some mp =>
      match closestBruteForceEdge starts bDiff bLens2 mp with
      | none => none
      | some closestEdge =>
        match borderToTri.get? closestEdge with
        | none => none
        | some triIdx =>
          if mIdx < triIdxs.length then
            hmLoop uvs borderToTri starts bDiff bLens2 rest (triIdxs.set mIdx triIdx)
          else none

/-- `handleMissing` (uvQuery.cpp lines 190-225).  The declared tolerance
    `float tol = 1.0f` (line 197) is never used by the source and has no
    counterpart here. -/
def handleMissing (uvs : List (ℚ × ℚ)) (borders : List (ℕ × ℕ))
    (missing : List ℕ) (borderToTri : List ℕ) (triIdxs : List ℕ) :
    Option (List ℕ) :=
  match optMap (edgeDatum uvs) borders with
  | none => none
  | some ed =>
    hmLoop uvs borderToTri (ed.map fun x => x.1) (ed.map fun x => x.2.1)
      (ed.map fun x => x.2.2) missing triIdxs

/-- After the `hmLoop` pass: every processed missing index holds a value copied
    from `borderToTri` at an in-range edge index, and untouched positions are
    unchanged. -/
theorem hmLoop_spec (uvs : List (ℚ × ℚ)) (borderToTri : List ℕ)
    (starts bDiff : List (ℚ × ℚ)) (bLens2 : List ℚ) :
    ∀ (missing triIdxs res : List ℕ), 0 < starts.length →
      hmLoop uvs borderToTri starts bDiff bLens2 missing triIdxs = some res →
      ∀ j : ℕ,
        (j ∈ missing → ∃ e, e < starts.length ∧ res.get? j = borderToTri.get? e) ∧
        (j ∉ missing → res.get? j = triIdxs.get? j) := by
  intro missing
  induction missing with
  | nil =>
    intro triIdxs res hs h j
    rw [hmLoop] at h
    simp only [Option.some.injEq] at h
    subst h
    exact ⟨fun hj => absurd hj (List.not_mem_nil j), fun _ => rfl⟩
  | cons mIdx rest ih =>
    intro triIdxs res hs h j
    rw [hmLoop] at h
    cases hmp : uvs.get? mIdx with
    | none =>
      rw [hmp] at h
      exact absurd h (by simp)
    | some mp =>
      rw [hmp] at h
      dsimp only at h
      cases hce : closestBruteForceEdge starts bDiff bLens2 mp with
      | none =>
        rw [hce] at h
        exact absurd h (by simp)
      | some closestEdge =>
        rw [hce] at h
        dsimp only at h
        cases hbt : borderToTri.get? closestEdge with
        | none =>
          rw [hbt] at h
          exact absurd h (by simp)
        | some triIdx =>
          rw [hbt] at h
          dsimp only at h
          split at h
          · rename_i hlt
            have hce2 : closestEdge < starts.length :=
              closestBruteForceEdge_range hs hce
            constructor
            · intro hj
              by_cases hr : j ∈ rest
              · exact (ih _ _ hs h j).1 hr
              · have hj2 : j = mIdx := by
                  rcases List.mem_cons.mp hj with h1 | h1
                  · exact h1
                  · exact absurd h1 hr
                subst hj2
                refine ⟨closestEdge, hce2, ?_⟩
                rw [(ih _ _ hs h j).2 hr, lp_get?_set_self _ _ _ hlt, hbt]
            · intro hj
              have hjm : j ≠ mIdx := fun he => hj (he ▸ List.mem_cons_self mIdx rest)
              have hjr : j ∉ rest := fun he => hj (List.mem_cons_of_mem mIdx he)
              rw [(ih _ _ hs h j).2 hjr,
                  lp_get?_set_ne _ _ _ _ (fun he => hjm he.symm)]
          · exact absurd h (by simp)

/-- Modelled from the spec, section 4.4 (for comparison only): the clamped
    projection of a query point onto a boundary edge with the squared length
    computed as `dx^2 + dy^2`, and the squared distance from the point to the
    clamped projection.  `closestBruteForceEdge` is claimed to minimise this
    quantity over all boundary edges. -/
def specEdgeSqDist (uvs : List (ℚ × ℚ)) (e : ℕ × ℕ) (pt : ℚ × ℚ) : ℚ :=
  let uv1 := uvs.getD e.1 (0, 0)
  let uv2 := uvs.getD e.2 (0, 0)
  let dx := uv2.1 - uv1.1
  let dy := uv2.2 - uv1.2
  let lerp0 := ((pt.1 - uv1.1) * dx + (pt.2 - uv1.2) * dy) / (dx * dx + dy * dy)
  let lerp := if lerp0 < 0 then 0 else if 1 < lerp0 then 1 else lerp0
  let c0 := dx * lerp + uv1.1 - pt.1
  let c1 := dy * lerp + uv1.2 - pt.2
  c0 * c0 + c1 * c1

/-- Concrete triangulation of the spec's test scenarios: the single triangle
    with vertices (0,0), (1,0), (0,1). -/
def uvsT : List (ℚ × ℚ) := [(0, 0), (1, 0), (0, 1)]

/-- The flattened triangle-index list of the single-triangle scenario. -/
def trisT : List ℕ := [0, 1, 2]

/-- The spec's first scenario query: the point (1/4, 1/4), strictly interior
    to the triangle of `uvsT`. -/
def qrysT : List (ℚ × ℚ) := [(1 / 4, 1 / 4)]

/-- A concrete instantiation of the external point-in-triangle predicate used
    by witnesses (its value is irrelevant to the theorems it instantiates). -/
def pitF : Pit := fun _ _ _ _ => false

/-- Fallback environment for `Option.getD` extraction of concrete runs. -/
def envFb : SweepEnv := ⟨[], [], [], 0, [], [], [], [], [], [], [], [], []⟩

/-- Fallback state for `Option.getD` extraction of concrete runs. -/
def stFb : SweepState := ⟨0, 0, 0, 0, 0, 0, 0, 0, 0, [], [], [], [], [], []⟩

/-- The environment and initial state the setup phase builds on the
    single-triangle scenario. -/
def initT : SweepEnv × SweepState :=
  (sweepInit qrysT uvsT trisT).getD (envFb, stFb)

/-- Vertices for the fallback counterexample: two boundary edges
    (0,0)-(2,1) and (1,1)-(0,1), plus the query point (1, 1/2) sitting exactly
    on the first edge. -/
def uvsE : List (ℚ × ℚ) := [(0, 0), (2, 1), (1, 1), (0, 1), (1, 1 / 2)]

/-- The two boundary edges of the fallback counterexample. -/
def bordersE : List (ℕ × ℕ) := [(0, 1), (2, 3)]

/-- C1: the spec claims `missing` holds exactly the unresolved query indices,
    with no pre-filled placeholder entries.  The code instead calls
    `missing.resize(qPoints.size())` (uvQuery.cpp line 76), so every state the
    sweep loop reaches carries `qPoints.size()` placeholder zeros at the head
    of `missing`, before any genuinely missing index is appended. -/
theorem missing_prefilled_placeholders :
    ∀ (qPoints uvs : List (ℚ × ℚ)) (tris : List ℕ) (env : SweepEnv)
      (s0 : SweepState) (pit : Pit) (s : SweepState),
      sweepInit qPoints uvs tris = some (env, s0) → ReachFrom env pit s0 s →
      ∃ tail, s.missing = List.replicate qPoints.length 0 ++ tail := by
  intro qPoints uvs tris env s0 pit s h0 hr
  exact (reach_good h0 hr).2.2.2.2.2.1

/-- Witness for C1 at the single-triangle scenario: already at the initial
    state, `missing` contains the placeholder zero for the one query point. -/
theorem missing_prefilled_placeholders_witness :
    ∃ tail, initT.2.missing = List.replicate qrysT.length 0 ++ tail :=
  missing_prefilled_placeholders qrysT uvsT trisT initT.1 initT.2 pitF initT.2
    rfl ReachFrom.refl

/-- C2: the spec claims the query permutation's key array `qpx` holds the
    x components of the query points.  The code fills `qpx` from the uv vertex
    array (uvQuery.cpp lines 60-62): on the single-triangle scenario `qpx` is
    `[0, 1, 0]` — the x components of `uvsT` — although the query list is
    `[(1/4, 1/4)]`, and the query permutation drives 3 Test actions, not 1. -/
theorem qpx_from_uvs_not_queries :
    initT.1.qpx = [(0 : ℚ), 1, 0] ∧
    List.map Prod.fst qrysT = [(1 / 4 : ℚ)] ∧
    initT.1.qpx ≠ List.map Prod.fst qrysT ∧
    initT.1.qpSIdxs.length = 3 ∧ qrysT.length = 1 := by
  refine ⟨rfl, rfl, ?_, rfl, rfl⟩
  intro he
  have h1 : initT.1.qpx = [(0 : ℚ), 1, 0] := rfl
  have h2 : List.map Prod.fst qrysT = [(1 / 4 : ℚ)] := rfl
  rw [h1, h2] at he
  simp at he

/-- C3: the spec claims the fallback divides by the edge's squared length
    `dx^2 + dy^2` and picks an edge minimising the clamped-projection squared
    distance.  The code divides by `(dy - dx)^2` (uvQuery.cpp lines 213-214):
    on `uvsE`/`bordersE` with missing point (1, 1/2) it assigns the triangle of
    edge 1 (`borderToTri[1] = 9`) although the claimed metric is 0 at edge 0
    (the point lies on that edge) and 1/4 at edge 1. -/
theorem fallback_wrong_squared_length :
    handleMissing uvsE bordersE [4] [7, 9] [0, 0, 0, 0, 0] = some [0, 0, 0, 0, 9] ∧
    specEdgeSqDist uvsE (0, 1) (1, 1 / 2) = 0 ∧
    specEdgeSqDist uvsE (2, 3) (1, 1 / 2) = 1 / 4 ∧
    ¬ specEdgeSqDist uvsE (2, 3) (1, 1 / 2) ≤ specEdgeSqDist uvsE (0, 1) (1, 1 / 2) := by
  refine ⟨?_, ?_, ?_, ?_⟩
  · norm_num [handleMissing, optMap, edgeDatum, hmLoop, closestBruteForceEdge,
      cbfeBody, ltMaxOpt, uvsE, bordersE, List.range_succ, List.foldl]
  · norm_num [specEdgeSqDist, uvsE]
  · norm_num [specEdgeSqDist, uvsE]
  · norm_num [specEdgeSqDist, uvsE]

/-- C4: the loop itself cannot run forever — with fuel above the cursor
    measure every run ends (`done` or `oob`) — but the spec's claim that it
    ends exactly when the query cursor has consumed all query points fails:
    on the spec's own scenario of a query point to the right of the only
    triangle, the loop exits through an out-of-bounds read (the
    xmin-exhaustion sentinel), whatever the point-in-triangle predicate:
    the model returns `oob`, not `done`. -/
theorem sweep_exits_oob_not_done :
    (∀ (env : SweepEnv) (pit : Pit) (fuel : ℕ) (s : SweepState),
       sweepMeasure env s < fuel → sweepLoopF env pit fuel s ≠ LoopRes.fuelOut) ∧
    (∀ pit : Pit, sweep 2 pit [((2 : ℚ), 2)] uvsT trisT = LoopRes.oob) :=
  ⟨fun env pit fuel s hs => sweepLoopF_no_fuelOut env pit fuel s hs, fun _ => rfl⟩

/-- Witness for C4 at a concrete predicate and the concrete initial state. -/
theorem sweep_exits_oob_not_done_witness :
    sweepLoopF initT.1 pitF 8 initT.2 ≠ LoopRes.fuelOut ∧
    sweep 2 pitF [((2 : ℚ), 2)] uvsT trisT = LoopRes.oob :=
  ⟨sweep_exits_oob_not_done.1 initT.1 pitF 8 initT.2 (by decide),
   sweep_exits_oob_not_done.2 pitF⟩

/-- C5: the spec claims the xmin-exhaustion sentinel is obtained by a valid
    in-bounds read.  The read index of `mxSIdxs[-1]` is `(size_t)(-1) =
    2^64 - 1`, out of range for every vector shorter than 2^64 entries, and on
    the single-triangle input the sweep crashes exactly by failing that read. -/
theorem sentinel_read_out_of_bounds :
    sentinelReadIdx = 18446744073709551615 ∧
    (∀ l : List ℕ, l.length < 2 ^ 64 → l.get? sentinelReadIdx = none) ∧
    (∀ pit : Pit, sweep 2 pit [((3 : ℚ), 0)] uvsT trisT = LoopRes.oob) := by
  refine ⟨rfl, ?_, fun _ => rfl⟩
  intro l hl
  cases hg : l.get? sentinelReadIdx with
  | none => rfl
  | some a =>
    exfalso
    have h1 := lp_get?_lt hg
    have h2 : sentinelReadIdx = 18446744073709551615 := rfl
    rw [h2] at h1
    have h3 : (2 : ℕ) ^ 64 = 18446744073709551616 := by norm_num
    rw [h3] at hl
    omega

/-- Witness for C5: a concrete 3-element vector fails the sentinel read, and
    the concrete sweep crashes. -/
theorem sentinel_read_out_of_bounds_witness :
    ([0, 1, 2] : List ℕ).get? sentinelReadIdx = none ∧
    sweep 2 pitF [((3 : ℚ), 0)] uvsT trisT = LoopRes.oob :=
  ⟨sentinel_read_out_of_bounds.2.1 [0, 1, 2] (by norm_num),
   sentinel_read_out_of_bounds.2.2 pitF⟩

/-- C6: the spec claims an interior query point gets its triangle recorded
    and a barycentric entry produced.  On the spec's own scenario (triangle
    (0,0),(1,0),(0,1), query (1/4,1/4)) the sweep exits through an
    out-of-bounds read before resolving anything, for every point-in-triangle
    predicate; and no statement of `sweep` writes the barycentric output,
    which stays empty in every reachable state. -/
theorem interior_point_not_resolved :
    (∀ pit : Pit, sweep 2 pit qrysT uvsT trisT = LoopRes.oob) ∧
    (∀ (qPoints uvs : List (ℚ × ℚ)) (tris : List ℕ) (env : SweepEnv)
       (s0 : SweepState) (pit : Pit) (s : SweepState),
       sweepInit qPoints uvs tris = some (env, s0) → ReachFrom env pit s0 s →
       s.barys = []) := by
  refine ⟨fun _ => rfl, ?_⟩
  intro qPoints uvs tris env s0 pit s h0 hr
  exact (reach_good h0 hr).2.2.2.2.2.2

/-- Witness for C6 at concrete inputs. -/
theorem interior_point_not_resolved_witness :
    sweep 2 pitF qrysT uvsT trisT = LoopRes.oob ∧ initT.2.barys = [] :=
  ⟨interior_point_not_resolved.1 pitF,
   interior_point_not_resolved.2 qrysT uvsT trisT initT.1 initT.2 pitF initT.2
     rfl ReachFrom.refl⟩

/-- C7: for a non-empty boundary list with `borderToTri` parallel to it, a
    successful `handleMissing` writes `borderToTri[e]` for some in-range edge
    index `e` into every missing slot — never a value from outside
    `borderToTri`'s range. -/
theorem fallback_assigns_adjacent_triangle
    (uvs : List (ℚ × ℚ)) (borders : List (ℕ × ℕ))
    (missing : List ℕ) (borderToTri : List ℕ) (triIdxs res : List ℕ)
    (hne : borders ≠ [])
    (_hbl : borderToTri.length = borders.length)
    (h : handleMissing uvs borders missing borderToTri triIdxs = some res) :
    ∀ j, j ∈ missing →
      ∃ e, e < borders.length ∧ res.get? j = borderToTri.get? e := by
  unfold handleMissing at h
  cases hed : optMap (edgeDatum uvs) borders with
  | none =>
    rw [hed] at h
    exact absurd h (by simp)
  | some ed =>
    rw [hed] at h
    dsimp only at h
    have hlen : ed.length = borders.length := optMap_length hed
    have hslen : (ed.map fun x => x.1).length = borders.length := by
      rw [List.length_map]
      exact hlen
    have hpos : 0 < (ed.map fun x => x.1).length := by
      rw [hslen]
      cases borders with
      | nil => exact absurd rfl hne
      | cons b bs => simp
    intro j hj
    obtain ⟨e, he, hres⟩ :=
      (hmLoop_spec uvs borderToTri _ _ _ missing triIdxs res hpos h j).1 hj
    refine ⟨e, ?_, hres⟩
    rw [← hslen]
    exact he

/-- Witness for C7: one boundary edge adjacent to triangle 5; the missing
    point 2 receives exactly `borderToTri[0] = 5`. -/
theorem fallback_assigns_adjacent_triangle_witness :
    ∃ e, e < ([((0 : ℕ), (1 : ℕ))] : List (ℕ × ℕ)).length ∧
      ([0, 0, 5] : List ℕ).get? 2 = ([5] : List ℕ).get? e :=
  fallback_assigns_adjacent_triangle uvsT [(0, 1)] [2] [5] [0, 0, 0] [0, 0, 5]
    (by decide) rfl rfl 2 (by decide)

/-- C8: `argsort` returns a list of the input's length that is a permutation
    of the positions `0..n-1`, under which the keys are non-decreasing, and in
    which equal keys keep their original relative order. -/
theorem argsort_stable_sort_spec (v : List ℚ) :
    (argsort v).length = v.length ∧
    (argsort v).Perm (List.range v.length) ∧
    (argsort v).Pairwise (fun i j => v.getD i 0 ≤ v.getD j 0) ∧
    (argsort v).Pairwise (fun i j => v.getD i 0 = v.getD j 0 → i ≤ j) := by
  have hperm : (argsort v).Perm (List.range v.length) :=
    List.perm_insertionSort (argRel v) (List.range v.length)
  have hsorted : List.Sorted (argRel v) (argsort v) :=
    List.sorted_insertionSort (argRel v) (List.range v.length)
  refine ⟨?_, hperm, ?_, ?_⟩
  · rw [hperm.length_eq, List.length_range]
  · refine List.Pairwise.imp ?_ hsorted
    intro i j hab
    exact hab.elim le_of_lt (fun hp => le_of_eq hp.1)
  · refine List.Pairwise.imp ?_ hsorted
    intro i j hab he
    rcases hab with hlt | hp
    · exact absurd he (ne_of_lt hlt)
    · exact hp.2

/-- Witness for C8 on the keys `[2, 1, 1]` (a duplicate pair to exercise
    stability). -/
theorem argsort_stable_sort_spec_witness :
    (argsort [2, 1, 1]).length = ([2, 1, 1] : List ℚ).length ∧
    (argsort [2, 1, 1]).Perm (List.range ([2, 1, 1] : List ℚ).length) ∧
    (argsort [2, 1, 1]).Pairwise
      (fun i j => ([2, 1, 1] : List ℚ).getD i 0 ≤ ([2, 1, 1] : List ℚ).getD j 0) ∧
    (argsort [2, 1, 1]).Pairwise
      (fun i j => ([2, 1, 1] : List ℚ).getD i 0 = ([2, 1, 1] : List ℚ).getD j 0 → i ≤ j) :=
  argsort_stable_sort_spec [2, 1, 1]

/-- C9: at every state the sweep loop reaches, a triangle is in the active
    set iff its `activeTris` flag is true, no triangle appears twice, and no
    skipped triangle is ever a member. -/
theorem active_set_agrees_with_flags
    (qPoints uvs : List (ℚ × ℚ)) (tris : List ℕ) (env : SweepEnv)
    (s0 : SweepState) (pit : Pit) (s : SweepState)
    (h0 : sweepInit qPoints uvs tris = some (env, s0))
    (hr : ReachFrom env pit s0 s) :
    (∀ t, t ∈ s.atSet ↔ s.activeTris.get? t = some true) ∧
    s.atSet.Nodup ∧
    (∀ t, t ∈ s.atSet → env.skip.get? t = some false) := by
  obtain ⟨h1, h2, h3, _⟩ := reach_good h0 hr
  exact ⟨h1, h2, h3⟩

/-- Witness for C9 at the initial state of the single-triangle scenario. -/
theorem active_set_agrees_with_flags_witness :
    (∀ t, t ∈ initT.2.atSet ↔ initT.2.activeTris.get? t = some true) ∧
    initT.2.atSet.Nodup ∧
    (∀ t, t ∈ initT.2.atSet → initT.1.skip.get? t = some false) :=
  active_set_agrees_with_flags qrysT uvsT trisT initT.1 initT.2 pitF initT.2
    rfl ReachFrom.refl

/-- C10: `out` is written only at recorded point-in-triangle hits; at every
    state the sweep loop reaches, `out` keeps one entry per query point and
    every entry with no recorded write still holds the zero left by the
    value-initialising resize — so an unresolved point's entry reads as
    triangle index 0, indistinguishable from a genuine resolution to 0. -/
theorem out_entries_default_zero
    (qPoints uvs : List (ℚ × ℚ)) (tris : List ℕ) (env : SweepEnv)
    (s0 : SweepState) (pit : Pit) (s : SweepState)
    (h0 : sweepInit qPoints uvs tris = some (env, s0))
    (hr : ReachFrom env pit s0 s) :
    s.out.length = qPoints.length ∧
    (∀ i, (∀ t, (i, t) ∉ s.written) → i < s.out.length →
       s.out.get? i = some 0) := by
  obtain ⟨_, _, _, h4, h5, _⟩ := reach_good h0 hr
  exact ⟨h5, h4⟩

/-- Witness for C10 at the initial state of the single-triangle scenario. -/
theorem out_entries_default_zero_witness :
    initT.2.out.length = qrysT.length ∧
    (∀ i, (∀ t, (i, t) ∉ initT.2.written) → i < initT.2.out.length →
       initT.2.out.get? i = some 0) :=
  out_entries_default_zero qrysT uvsT trisT initT.1 initT.2 pitF initT.2
    rfl ReachFrom.refl

end UvQuery
